import Mathlib

/-!
Verification development for the PSP22 fungible-token ledger
(`src/lib.rs`, module `psp22_ink`).

The contract storage (`Psp22Ink`), the error enumeration (`PSP22Error`),
the two events and the eight protocol operations are embedded shallowly:

* `AccountId` is ink's 32-byte account identifier, modelled as a natural
  number below `2 ^ 256`; `AccountId::from([0x0; 32])` is `zeroAccount`.
* `Balance` is `u128`; amounts are natural numbers, and the `+` / `-`
  of the Rust source are `u128add` / `u128sub`, which reduce modulo
  `2 ^ 128` exactly where the machine arithmetic would wrap.
* `ink::storage::Mapping` is a key-value store, modelled as an
  association list with `Mapping.get` / `Mapping.insert`; a missing key
  reads as `none`, and the source's `unwrap_or_default()` is `.getD 0`.
* The execution context supplies the authenticated `caller` and the
  `is_contract` predicate; both are explicit parameters here.
* Each message returns a `CallOutput`: the `Result` value of the Rust
  method, the post-call storage, and the list of emitted events.
-/

namespace Psp22

/-- Account identifier: an opaque 32-byte value (`AccountId`), modelled as a
natural number below `2 ^ 256`. -/
abbrev AccountId : Type := Fin (2 ^ 256)

/-- The zero identifier `AccountId::from([0x0; 32])`. -/
def zeroAccount : AccountId := ⟨0, by norm_num⟩

/-- Modulus of the `u128` `Balance` type. -/
def U128_MOD : Nat := 2 ^ 128

/-- Wrapping `u128` addition: the Rust `+` on `Balance` values. -/
def u128add (a b : Nat) : Nat := (a + b) % U128_MOD

/-- Wrapping `u128` subtraction: the Rust `-` on `Balance` values. -/
def u128sub (a b : Nat) : Nat := (U128_MOD + a - b) % U128_MOD

/-- `ink::storage::Mapping`: a key-value store, modelled as an association
list. -/
def Mapping (K V : Type) : Type := List (K × V)

namespace Mapping

variable {K V : Type} [DecidableEq K]

/-- `Mapping::default()`: the empty store. -/
def empty : Mapping K V := []

/-- `Mapping::get`: the value stored under a key, if any. -/
def get : Mapping K V → K → Option V
  | [], _ => none
  | (k', v) :: t, k => if k' = k then some v else get t k

/-- Remove every binding of a key (helper for `insert`). -/
def removeKey : Mapping K V → K → Mapping K V
  | [], _ => []
  | (k', v) :: t, k => if k' = k then removeKey t k else (k', v) :: removeKey t k

/-- `Mapping::insert`: store a value under a key, replacing any previous
binding. -/
def insert (m : Mapping K V) (k : K) (v : V) : Mapping K V :=
  (k, v) :: removeKey m k

/-- The keys bound in the store. -/
def keys (m : Mapping K V) : List K := m.map Prod.fst

/-- Every key is bound at most once (holds for every store built from
`empty` by `insert`). -/
def NodupKeys (m : Mapping K V) : Prop := (keys m).Nodup

/-- Sum of all stored values. -/
def sumVals : Mapping K Nat → Nat
  | [] => 0
  | (_, v) :: t => v + sumVals t

end Mapping

/-- The contract storage struct `Psp22Ink`. -/
structure Psp22Ink where
  total_supply : Nat
  balances : Mapping AccountId Nat
  allowances : Mapping (AccountId × AccountId) Nat

/-- The error enumeration `PSP22Error`. -/
inductive PSP22Error where
  | Custom : String → PSP22Error
  | InsufficientBalance : PSP22Error
  | InsufficientAllowance : PSP22Error
  | ZeroRecipientAddress : PSP22Error
  | ZeroSenderAddress : PSP22Error
  | SafeTransferCheckFailed : String → PSP22Error
deriving DecidableEq

/-- `Result<()> = core::result::Result<(), PSP22Error>`. -/
inductive Result where
  | ok : Result
  | err : PSP22Error → Result
deriving DecidableEq

/-- The two contract events. -/
inductive Event where
  | Transfer : Option AccountId → Option AccountId → Nat → Event
  | Approval : AccountId → AccountId → Nat → Event
deriving DecidableEq

/-- Outcome of one message call: the returned `Result`, the post-call
storage, and the events emitted during the call. -/
structure CallOutput where
  result : Result
  state : Psp22Ink
  events : List Event

/-- Message text of the `SafeTransferCheckFailed` error raised by
`transfer` and `transfer_from`. -/
def safeTransferMsg : String :=
  "Recipient is a contract and does not implement safe transfer behavior"

/-- `balance_of(owner)`: `self.balances.get(&owner).unwrap_or_default()`.
A pure query: no side effects, total (cannot fail). -/
def balance_of (s : Psp22Ink) (owner : AccountId) : Nat :=
  (s.balances.get owner).getD 0

/-- `allowance(owner, spender)`:
`self.allowances.get(&(owner, spender)).unwrap_or_default()`.
A pure query: no side effects, total (cannot fail). -/
def allowance (s : Psp22Ink) (owner spender : AccountId) : Nat :=
  (s.allowances.get (owner, spender)).getD 0

/-- The constructor `new(total_supply)`, invoked with caller identity
`caller`: credits the whole supply to the caller and emits one
`Transfer` event with `from = None`, `to = Some(caller)`. Returns the
initial storage and the emitted events. -/
def new (caller : AccountId) (total_supply : Nat) : Psp22Ink × List Event :=
  ({ total_supply := total_supply
     balances := Mapping.empty.insert caller total_supply
     allowances := Mapping.empty },
   [Event.Transfer none (some caller) total_supply])

/-- `transfer(to, value)`, with execution context `is_contract` and
authenticated `caller` (the sender `from`). -/
def transfer (is_contract : AccountId → Bool) (caller : AccountId)
    (s : Psp22Ink) (to_ : AccountId) (value : Nat) : CallOutput :=
  let from_ := caller
  let from_balance := balance_of s from_
  if from_balance < value then ⟨.err .InsufficientBalance, s, []⟩
  else if from_ = zeroAccount then ⟨.err .ZeroSenderAddress, s, []⟩
  else if to_ = zeroAccount then ⟨.err .ZeroRecipientAddress, s, []⟩
  else if is_contract to_ then ⟨.err (.SafeTransferCheckFailed safeTransferMsg), s, []⟩
  else
    let balances1 := s.balances.insert from_ (u128sub from_balance value)
    let s1 : Psp22Ink := { s with balances := balances1 }
    let to_balance := balance_of s1 to_
    let s2 : Psp22Ink := { s1 with balances := balances1.insert to_ (u128add to_balance value) }
    ⟨.ok, s2, [Event.Transfer (some from_) (some to_) value]⟩

/-- `transfer_from(from, to, value)`, with execution context `is_contract`
and authenticated `caller` (the spender). -/
def transfer_from (is_contract : AccountId → Bool) (caller : AccountId)
    (s : Psp22Ink) (from_ to_ : AccountId) (value : Nat) : CallOutput :=
  let al := allowance s from_ caller
  if al < value then ⟨.err .InsufficientAllowance, s, []⟩
  else
    let from_balance := balance_of s from_
    if from_balance < value then ⟨.err .InsufficientBalance, s, []⟩
    else if from_ = zeroAccount then ⟨.err .ZeroSenderAddress, s, []⟩
    else if to_ = zeroAccount then ⟨.err .ZeroRecipientAddress, s, []⟩
    else if is_contract to_ then ⟨.err (.SafeTransferCheckFailed safeTransferMsg), s, []⟩
    else
      let allowances1 := s.allowances.insert (from_, caller) (u128sub al value)
      let balances1 := s.balances.insert from_ (u128sub from_balance value)
      let s1 : Psp22Ink := { s with allowances := allowances1, balances := balances1 }
      let to_balance := balance_of s1 to_
      let s2 : Psp22Ink := { s1 with balances := balances1.insert to_ (u128add to_balance value) }
      ⟨.ok, s2, [Event.Transfer (some from_) (some to_) value]⟩

/-- `approve(spender, value)`, with authenticated `caller` (the owner):
unconditionally sets the allowance and emits `Approval`. -/
def approve (caller : AccountId) (s : Psp22Ink) (spender : AccountId)
    (value : Nat) : CallOutput :=
  ⟨.ok,
   { s with allowances := s.allowances.insert (caller, spender) value },
   [Event.Approval caller spender value]⟩

/-- `increase_allowance(spender, added_value)`, with authenticated `caller`
(the owner). The stored value is the Rust expression
`allowance + added_value` on `u128`. -/
def increase_allowance (caller : AccountId) (s : Psp22Ink)
    (spender : AccountId) (added_value : Nat) : CallOutput :=
  let al := allowance s caller spender
  if caller = zeroAccount then ⟨.err .ZeroSenderAddress, s, []⟩
  else if spender = zeroAccount then ⟨.err .ZeroRecipientAddress, s, []⟩
  else
    ⟨.ok,
     { s with allowances := s.allowances.insert (caller, spender) (u128add al added_value) },
     [Event.Approval caller spender (u128add al added_value)]⟩

/-- `decrease_allowance(spender, subtracted_value)`, with authenticated
`caller` (the owner). -/
def decrease_allowance (caller : AccountId) (s : Psp22Ink)
    (spender : AccountId) (subtracted_value : Nat) : CallOutput :=
  let al := allowance s caller spender
  if al < subtracted_value then ⟨.err .InsufficientAllowance, s, []⟩
  else if caller = zeroAccount then ⟨.err .ZeroSenderAddress, s, []⟩
  else if spender = zeroAccount then ⟨.err .ZeroRecipientAddress, s, []⟩
  else
    ⟨.ok,
     { s with allowances := s.allowances.insert (caller, spender) (u128sub al subtracted_value) },
     [Event.Approval caller spender (u128sub al subtracted_value)]⟩

/-- States reachable from the constructor by the protocol operations.
The three queries (`total_supply`, `balance_of`, `allowance`) are pure
functions of the state and appear as the definitions above; only the
constructor and the five mutating messages change the storage. The
side conditions `< U128_MOD` record that every `Balance` argument is a
`u128` value. -/
inductive Reachable : Psp22Ink → Prop where
  | init (caller : AccountId) (S : Nat) (hS : S < U128_MOD) :
      Reachable (new caller S).1
  | transfer_step (ic : AccountId → Bool) (caller to_ : AccountId) (v : Nat)
      (s : Psp22Ink) (hv : v < U128_MOD) (hs : Reachable s) :
      Reachable (transfer ic caller s to_ v).state
  | transfer_from_step (ic : AccountId → Bool) (caller from_ to_ : AccountId)
      (v : Nat) (s : Psp22Ink) (hv : v < U128_MOD) (hs : Reachable s) :
      Reachable (transfer_from ic caller s from_ to_ v).state
  | approve_step (caller spender : AccountId) (v : Nat) (s : Psp22Ink)
      (hv : v < U128_MOD) (hs : Reachable s) :
      Reachable (approve caller s spender v).state
  | increase_step (caller spender : AccountId) (v : Nat) (s : Psp22Ink)
      (hv : v < U128_MOD) (hs : Reachable s) :
      Reachable (increase_allowance caller s spender v).state
  | decrease_step (caller spender : AccountId) (v : Nat) (s : Psp22Ink)
      (hv : v < U128_MOD) (hs : Reachable s) :
      Reachable (decrease_allowance caller s spender v).state

/-- Concrete account identities used in witnesses. -/
def accA : AccountId := ⟨1, by norm_num⟩

/-- Concrete account identity used in witnesses. -/
def accB : AccountId := ⟨2, by norm_num⟩

/-- Concrete account identity used in witnesses. -/
def accC : AccountId := ⟨3, by norm_num⟩

/-- Concrete account identity used in witnesses. -/
def accD : AccountId := ⟨4, by norm_num⟩

/-- Execution context of the witnesses: no recipient is a contract. -/
def noContract : AccountId → Bool := fun _ => false

namespace Mapping

/-- All values stored in the map are below a bound (the map is a store of
`u128` values when the bound is `2 ^ 128`). -/
def ValuesBounded {K : Type} : Mapping K Nat → Nat → Prop
  | [], _ => True
  | (_, v) :: t, b => v < b ∧ ValuesBounded t b

theorem get_insert_self {K V : Type} [DecidableEq K] (m : Mapping K V) (k : K) (v : V) :
    get (insert m k v) k = some v := by
  simp [insert, get]

theorem get_removeKey_ne {K V : Type} [DecidableEq K] (m : Mapping K V) {k k' : K}
    (h : k' ≠ k) : get (removeKey m k) k' = get m k' := by
  induction m with
  | nil => rfl
  | cons p t ih =>
    obtain ⟨a, b⟩ := p
    by_cases hak : a = k
    · simp [removeKey, get, hak, Ne.symm h, ih]
    · simp [removeKey, get, hak, ih]

theorem get_insert_ne {K V : Type} [DecidableEq K] (m : Mapping K V) {k k' : K} (v : V)
    (h : k' ≠ k) : get (insert m k v) k' = get m k' := by
  simp [insert, get, Ne.symm h, get_removeKey_ne m h]

theorem get_eq_none_of_not_mem_keys {K V : Type} [DecidableEq K] (m : Mapping K V)
    {k : K} (h : k ∉ keys m) : get m k = none := by
  induction m with
  | nil => rfl
  | cons p t ih =>
    obtain ⟨a, b⟩ := p
    simp only [keys, List.map_cons, List.mem_cons, not_or] at h
    have ha : ¬ a = k := fun e => h.1 e.symm
    simp [get, ha, ih h.2]

theorem removeKey_of_get_none {K V : Type} [DecidableEq K] (m : Mapping K V)
    {k : K} (h : get m k = none) : removeKey m k = m := by
  induction m with
  | nil => rfl
  | cons p t ih =>
    obtain ⟨a, b⟩ := p
    by_cases hak : a = k
    · simp [get, hak] at h
    · simp only [get, if_neg hak] at h
      simp [removeKey, hak, ih h]

theorem removeKey_sublist {K V : Type} [DecidableEq K] (m : Mapping K V) (k : K) :
    List.Sublist (removeKey m k) m := by
  induction m with
  | nil => exact List.Sublist.refl _
  | cons p t ih =>
    obtain ⟨a, b⟩ := p
    by_cases hak : a = k
    · simp only [removeKey, if_pos hak]
      exact List.Sublist.cons _ ih
    · simp only [removeKey, if_neg hak]
      exact List.Sublist.cons₂ _ ih

theorem not_mem_keys_removeKey {K V : Type} [DecidableEq K] (m : Mapping K V) (k : K) :
    k ∉ keys (removeKey m k) := by
  induction m with
  | nil => simp [removeKey, keys]
  | cons p t ih =>
    obtain ⟨a, b⟩ := p
    by_cases hak : a = k
    · simpa only [removeKey, if_pos hak] using ih
    · simp only [removeKey, if_neg hak, keys, List.map_cons, List.mem_cons, not_or]
      exact ⟨fun e => hak e.symm, ih⟩

theorem nodupKeys_removeKey {K V : Type} [DecidableEq K] {m : Mapping K V} (k : K)
    (h : NodupKeys m) : NodupKeys (removeKey m k) :=
  List.Nodup.sublist (List.Sublist.map Prod.fst (removeKey_sublist m k)) h

theorem nodupKeys_insert {K V : Type} [DecidableEq K] {m : Mapping K V} (k : K) (v : V)
    (h : NodupKeys m) : NodupKeys (insert m k v) := by
  simp only [insert, NodupKeys, keys, List.map_cons, List.nodup_cons]
  exact ⟨not_mem_keys_removeKey m k, nodupKeys_removeKey k h⟩

theorem nodupKeys_empty {K V : Type} : NodupKeys (empty : Mapping K V) := by
  simp [NodupKeys, keys, empty]

theorem get_le_sumVals {K : Type} [DecidableEq K] {m : Mapping K Nat} {k : K} {w : Nat}
    (h : get m k = some w) : w ≤ sumVals m := by
  induction m with
  | nil => simp [get] at h
  | cons p t ih =>
    obtain ⟨a, b⟩ := p
    by_cases hak : a = k
    · simp only [get, if_pos hak, Option.some.injEq] at h
      subst h
      simp only [sumVals]
      omega
    · simp only [get, if_neg hak] at h
      have := ih h
      simp only [sumVals]
      omega

theorem getD_le_sumVals {K : Type} [DecidableEq K] (m : Mapping K Nat) (k : K) :
    (get m k).getD 0 ≤ sumVals m := by
  cases h : get m k with
  | none => simp
  | some w => simpa using get_le_sumVals h

theorem sumVals_removeKey_of_get_some {K : Type} [DecidableEq K] {m : Mapping K Nat}
    {k : K} {w : Nat} (hnd : NodupKeys m) (h : get m k = some w) :
    sumVals m = w + sumVals (removeKey m k) := by
  induction m with
  | nil => simp [get] at h
  | cons p t ih =>
    obtain ⟨a, b⟩ := p
    have hnd' : (a ∉ keys t) ∧ NodupKeys t := by
      simpa [NodupKeys, keys, List.nodup_cons] using hnd
    by_cases hak : a = k
    · simp only [get, if_pos hak, Option.some.injEq] at h
      subst h
      have ht : get t k = none := get_eq_none_of_not_mem_keys t (hak ▸ hnd'.1)
      simp only [sumVals, removeKey, if_pos hak, removeKey_of_get_none t ht]
    · simp only [get, if_neg hak] at h
      have := ih hnd'.2 h
      simp only [sumVals, removeKey, if_neg hak]
      omega

theorem sumVals_insert {K : Type} [DecidableEq K] (m : Mapping K Nat) (k : K) (v : Nat) :
    sumVals (insert m k v) = v + sumVals (removeKey m k) := by
  simp [insert, sumVals]

/-- Accounting identity for one `insert`: the new sum plus the overwritten
value equals the old sum plus the inserted value. -/
theorem sumVals_insert_exchange {K : Type} [DecidableEq K] {m : Mapping K Nat}
    (hnd : NodupKeys m) (k : K) (v : Nat) :
    sumVals (insert m k v) + (get m k).getD 0 = sumVals m + v := by
  cases h : get m k with
  | none =>
    rw [sumVals_insert, removeKey_of_get_none m h]
    simp [Nat.add_comm]
  | some w =>
    have h2 := sumVals_removeKey_of_get_some hnd h
    rw [sumVals_insert]
    simp only [Option.getD_some]
    omega

theorem valuesBounded_get {K : Type} [DecidableEq K] {m : Mapping K Nat}
    {bound : Nat} {k : K} {w : Nat} (hm : ValuesBounded m bound)
    (h : get m k = some w) : w < bound := by
  induction m with
  | nil => simp [get] at h
  | cons p t ih =>
    obtain ⟨a, b⟩ := p
    simp only [ValuesBounded] at hm
    by_cases hak : a = k
    · simp only [get, if_pos hak, Option.some.injEq] at h
      exact h ▸ hm.1
    · simp only [get, if_neg hak] at h
      exact ih hm.2 h

theorem valuesBounded_getD {K : Type} [DecidableEq K] {m : Mapping K Nat}
    {bound : Nat} (k : K) (hm : ValuesBounded m bound) (hb : 0 < bound) :
    (get m k).getD 0 < bound := by
  cases h : get m k with
  | none => simpa using hb
  | some w => simpa using valuesBounded_get hm h

theorem valuesBounded_removeKey {K : Type} [DecidableEq K] {m : Mapping K Nat}
    {bound : Nat} (k : K) (hm : ValuesBounded m bound) :
    ValuesBounded (removeKey m k) bound := by
  induction m with
  | nil => simpa [removeKey] using hm
  | cons p t ih =>
    obtain ⟨a, b⟩ := p
    simp only [ValuesBounded] at hm
    by_cases hak : a = k
    · simp only [removeKey, if_pos hak]
      exact ih hm.2
    · simp only [removeKey, if_neg hak, ValuesBounded]
      exact ⟨hm.1, ih hm.2⟩

theorem valuesBounded_insert {K : Type} [DecidableEq K] {m : Mapping K Nat}
    {bound : Nat} {k : K} {v : Nat} (hm : ValuesBounded m bound) (hv : v < bound) :
    ValuesBounded (insert m k v) bound := by
  simp only [insert, ValuesBounded]
  exact ⟨hv, valuesBounded_removeKey k hm⟩

theorem valuesBounded_empty {K : Type} (bound : Nat) :
    ValuesBounded (empty : Mapping K Nat) bound := by
  simp [ValuesBounded, empty]

end Mapping

theorem U128_MOD_pos : 0 < U128_MOD := by norm_num [U128_MOD]

theorem u128add_eq {a b : Nat} (h : a + b < U128_MOD) : u128add a b = a + b :=
  Nat.mod_eq_of_lt h

theorem u128add_lt (a b : Nat) : u128add a b < U128_MOD :=
  Nat.mod_lt _ U128_MOD_pos

theorem u128sub_eq {a b : Nat} (ha : a < U128_MOD) (hb : b ≤ a) :
    u128sub a b = a - b := by
  unfold u128sub
  have h1 : U128_MOD + a - b = U128_MOD + (a - b) := by omega
  rw [h1, Nat.add_mod_left]
  exact Nat.mod_eq_of_lt (by omega)

theorem u128sub_lt (a b : Nat) : u128sub a b < U128_MOD :=
  Nat.mod_lt _ U128_MOD_pos

/-- Well-formedness invariant of the storage: balance keys are unique, the
balances sum to the recorded total supply, and every stored quantity fits
in `u128`. -/
def Inv (s : Psp22Ink) : Prop :=
  Mapping.NodupKeys s.balances ∧
  Mapping.sumVals s.balances = s.total_supply ∧
  s.total_supply < U128_MOD ∧
  Mapping.ValuesBounded s.allowances U128_MOD

/-- The debit-then-credit balance update of `transfer` / `transfer_from`
keeps the key set duplicate-free and preserves the sum of all balances. -/
theorem move_preserves {m : Mapping AccountId Nat} {T : Nat} (from_ to_ : AccountId)
    (v : Nat) (hnd : Mapping.NodupKeys m) (hsum : Mapping.sumVals m = T)
    (hT : T < U128_MOD) (hv : v ≤ (Mapping.get m from_).getD 0) :
    Mapping.NodupKeys
      (Mapping.insert (Mapping.insert m from_ (u128sub ((Mapping.get m from_).getD 0) v)) to_
        (u128add ((Mapping.get (Mapping.insert m from_ (u128sub ((Mapping.get m from_).getD 0) v)) to_).getD 0) v)) ∧
    Mapping.sumVals
      (Mapping.insert (Mapping.insert m from_ (u128sub ((Mapping.get m from_).getD 0) v)) to_
        (u128add ((Mapping.get (Mapping.insert m from_ (u128sub ((Mapping.get m from_).getD 0) v)) to_).getD 0) v)) = T := by
  set fb := (Mapping.get m from_).getD 0 with hfb
  set m1 := Mapping.insert m from_ (u128sub fb v) with hm1
  set tb := (Mapping.get m1 to_).getD 0 with htb
  set m2 := Mapping.insert m1 to_ (u128add tb v) with hm2
  have hfb_le : fb ≤ Mapping.sumVals m := Mapping.getD_le_sumVals m from_
  have hfb_lt : fb < U128_MOD := by omega
  have hsub : u128sub fb v = fb - v := u128sub_eq hfb_lt hv
  have hnd1 : Mapping.NodupKeys m1 := Mapping.nodupKeys_insert _ _ hnd
  have e1 : Mapping.sumVals m1 + fb = Mapping.sumVals m + u128sub fb v :=
    Mapping.sumVals_insert_exchange hnd from_ (u128sub fb v)
  rw [hsub] at e1
  have hsum1 : Mapping.sumVals m1 = T - v ∧ v ≤ T := by omega
  have htb_le : tb ≤ Mapping.sumVals m1 := Mapping.getD_le_sumVals m1 to_
  have hadd : u128add tb v = tb + v := u128add_eq (by omega)
  have e2 : Mapping.sumVals m2 + tb = Mapping.sumVals m1 + u128add tb v :=
    Mapping.sumVals_insert_exchange hnd1 to_ (u128add tb v)
  rw [hadd] at e2
  exact ⟨Mapping.nodupKeys_insert _ _ hnd1, by omega⟩

/-- The constructor establishes the invariant. -/
theorem inv_new (caller : AccountId) (S : Nat) (hS : S < U128_MOD) :
    Inv (new caller S).1 := by
  refine ⟨Mapping.nodupKeys_insert _ _ Mapping.nodupKeys_empty, ?_, hS, Mapping.valuesBounded_empty _⟩
  simp [new, Mapping.insert, Mapping.removeKey, Mapping.sumVals, Mapping.empty]

/-- `transfer` preserves the invariant. -/
theorem inv_transfer (ic : AccountId → Bool) (caller to_ : AccountId) (v : Nat)
    (s : Psp22Ink) (hInv : Inv s) : Inv (transfer ic caller s to_ v).state := by
  obtain ⟨hnd, hsum, hT, hal⟩ := hInv
  simp only [transfer]
  split_ifs with h1 h2 h3 h4
  · exact ⟨hnd, hsum, hT, hal⟩
  · exact ⟨hnd, hsum, hT, hal⟩
  · exact ⟨hnd, hsum, hT, hal⟩
  · exact ⟨hnd, hsum, hT, hal⟩
  · have hmove := move_preserves (m := s.balances) (T := s.total_supply) caller to_ v
      hnd hsum hT (Nat.le_of_not_lt h1)
    exact ⟨hmove.1, hmove.2, hT, hal⟩

/-- `transfer_from` preserves the invariant. -/
theorem inv_transfer_from (ic : AccountId → Bool) (caller from_ to_ : AccountId)
    (v : Nat) (s : Psp22Ink) (hInv : Inv s) :
    Inv (transfer_from ic caller s from_ to_ v).state := by
  obtain ⟨hnd, hsum, hT, hal⟩ := hInv
  simp only [transfer_from]
  split_ifs with h1 h2 h3 h4 h5
  · exact ⟨hnd, hsum, hT, hal⟩
  · exact ⟨hnd, hsum, hT, hal⟩
  · exact ⟨hnd, hsum, hT, hal⟩
  · exact ⟨hnd, hsum, hT, hal⟩
  · exact ⟨hnd, hsum, hT, hal⟩
  · have hmove := move_preserves (m := s.balances) (T := s.total_supply) from_ to_ v
      hnd hsum hT (Nat.le_of_not_lt h2)
    exact ⟨hmove.1, hmove.2, hT,
      Mapping.valuesBounded_insert hal (u128sub_lt _ _)⟩

/-- `approve` preserves the invariant, for any `u128` value. -/
theorem inv_approve (caller spender : AccountId) (v : Nat) (s : Psp22Ink)
    (hv : v < U128_MOD) (hInv : Inv s) : Inv (approve caller s spender v).state := by
  obtain ⟨hnd, hsum, hT, hal⟩ := hInv
  exact ⟨hnd, hsum, hT, Mapping.valuesBounded_insert hal hv⟩

/-- `increase_allowance` preserves the invariant. -/
theorem inv_increase_allowance (caller spender : AccountId) (v : Nat) (s : Psp22Ink)
    (hInv : Inv s) : Inv (increase_allowance caller s spender v).state := by
  obtain ⟨hnd, hsum, hT, hal⟩ := hInv
  simp only [increase_allowance]
  split_ifs with h1 h2
  · exact ⟨hnd, hsum, hT, hal⟩
  · exact ⟨hnd, hsum, hT, hal⟩
  · exact ⟨hnd, hsum, hT, Mapping.valuesBounded_insert hal (u128add_lt _ _)⟩

/-- `decrease_allowance` preserves the invariant. -/
theorem inv_decrease_allowance (caller spender : AccountId) (v : Nat) (s : Psp22Ink)
    (hInv : Inv s) : Inv (decrease_allowance caller s spender v).state := by
  obtain ⟨hnd, hsum, hT, hal⟩ := hInv
  simp only [decrease_allowance]
  split_ifs with h1 h2 h3
  · exact ⟨hnd, hsum, hT, hal⟩
  · exact ⟨hnd, hsum, hT, hal⟩
  · exact ⟨hnd, hsum, hT, hal⟩
  · exact ⟨hnd, hsum, hT, Mapping.valuesBounded_insert hal (u128sub_lt _ _)⟩

/-- Every reachable state satisfies the invariant. -/
theorem inv_of_reachable {s : Psp22Ink} (h : Reachable s) : Inv s := by
  induction h with
  | init caller S hS => exact inv_new caller S hS
  | transfer_step ic caller to_ v s hv hs ih => exact inv_transfer ic caller to_ v s ih
  | transfer_from_step ic caller from_ to_ v s hv hs ih =>
    exact inv_transfer_from ic caller from_ to_ v s ih
  | approve_step caller spender v s hv hs ih => exact inv_approve caller spender v s hv ih
  | increase_step caller spender v s hv hs ih =>
    exact inv_increase_allowance caller spender v s ih
  | decrease_step caller spender v s hv hs ih =>
    exact inv_decrease_allowance caller spender v s ih

/-- C1: Conservation of supply: starting from the constructor state, every
state reachable under any sequence of the protocol operations has the sum
of all balances equal to the recorded total supply. -/
theorem conservation_of_supply {s : Psp22Ink} (h : Reachable s) :
    Mapping.sumVals s.balances = s.total_supply :=
  (inv_of_reachable h).2.1

/-- Witness for C1: the state after `new(1000)` by `accA` followed by
`transfer(accB, 300)` is reachable and conserves the supply. -/
theorem conservation_of_supply_witness :
    Reachable (transfer noContract accA (new accA 1000).1 accB 300).state ∧
    Mapping.sumVals (transfer noContract accA (new accA 1000).1 accB 300).state.balances =
      (transfer noContract accA (new accA 1000).1 accB 300).state.total_supply := by
  have hre : Reachable (transfer noContract accA (new accA 1000).1 accB 300).state :=
    Reachable.transfer_step noContract accA accB 300 _ (by norm_num [U128_MOD])
      (Reachable.init accA 1000 (by norm_num [U128_MOD]))
  exact ⟨hre, conservation_of_supply hre⟩

/-- C2: `transfer` validates in this exact order: insufficient caller
balance, zero sender, zero recipient, contract recipient; the first
failing check determines the returned error. -/
theorem transfer_validation_order (ic : AccountId → Bool) (caller to_ : AccountId)
    (s : Psp22Ink) (v : Nat) :
    (balance_of s caller < v →
      (transfer ic caller s to_ v).result = .err .InsufficientBalance) ∧
    (¬ balance_of s caller < v → caller = zeroAccount →
      (transfer ic caller s to_ v).result = .err .ZeroSenderAddress) ∧
    (¬ balance_of s caller < v → caller ≠ zeroAccount → to_ = zeroAccount →
      (transfer ic caller s to_ v).result = .err .ZeroRecipientAddress) ∧
    (¬ balance_of s caller < v → caller ≠ zeroAccount → to_ ≠ zeroAccount →
      ic to_ = true →
      (transfer ic caller s to_ v).result = .err (.SafeTransferCheckFailed safeTransferMsg)) := by
  refine ⟨fun h1 => ?_, fun h1 h2 => ?_, fun h1 h2 h3 => ?_, fun h1 h2 h3 h4 => ?_⟩
  · simp [transfer, h1]
  · subst h2
    simp [transfer, h1]
  · subst h3
    simp [transfer, h1, h2]
  · simp [transfer, h1, h2, h3, h4]

/-- Witness for C2: a caller with balance 5 calling
`transfer(zeroAccount, 10)` gets `InsufficientBalance`, not
`ZeroRecipientAddress`. -/
theorem transfer_validation_order_witness :
    balance_of (new accA 5).1 accA < 10 ∧
    (transfer noContract accA (new accA 5).1 zeroAccount 10).result =
      .err .InsufficientBalance := by
  refine ⟨by decide, ?_⟩
  exact (transfer_validation_order noContract accA zeroAccount (new accA 5).1 10).1 (by decide)

/-- C3 (amended): a `transfer` or `transfer_from` whose sender or recipient
is the zero identifier never succeeds; the error is the corresponding
`ZeroSenderAddress` / `ZeroRecipientAddress` whenever the earlier balance
(and allowance) sufficiency checks pass, while with insufficient funds the
earlier `InsufficientBalance` / `InsufficientAllowance` error is returned
instead. -/
theorem zero_identity_always_fails (ic : AccountId → Bool)
    (caller from_ to_ : AccountId) (s : Psp22Ink) (v : Nat) :
    (caller = zeroAccount ∨ to_ = zeroAccount →
      (transfer ic caller s to_ v).result ≠ .ok) ∧
    (¬ balance_of s caller < v → caller = zeroAccount →
      (transfer ic caller s to_ v).result = .err .ZeroSenderAddress) ∧
    (¬ balance_of s caller < v → caller ≠ zeroAccount → to_ = zeroAccount →
      (transfer ic caller s to_ v).result = .err .ZeroRecipientAddress) ∧
    (from_ = zeroAccount ∨ to_ = zeroAccount →
      (transfer_from ic caller s from_ to_ v).result ≠ .ok) ∧
    (¬ allowance s from_ caller < v → ¬ balance_of s from_ < v →
      from_ = zeroAccount →
      (transfer_from ic caller s from_ to_ v).result = .err .ZeroSenderAddress) ∧
    (¬ allowance s from_ caller < v → ¬ balance_of s from_ < v →
      from_ ≠ zeroAccount → to_ = zeroAccount →
      (transfer_from ic caller s from_ to_ v).result = .err .ZeroRecipientAddress) := by
  refine ⟨?_, fun h1 h2 => ?_, fun h1 h2 h3 => ?_, ?_, fun h1 h2 h3 => ?_,
    fun h1 h2 h3 h4 => ?_⟩
  · intro hz
    simp only [transfer]
    split_ifs with h1 h2 h3 h4 <;> simp
    rcases hz with hz | hz
    · exact h2 hz
    · exact h3 hz
  · subst h2
    simp [transfer, h1]
  · subst h3
    simp [transfer, h1, h2]
  · intro hz
    simp only [transfer_from]
    split_ifs with h1 h2 h3 h4 h5 <;> simp
    rcases hz with hz | hz
    · exact h3 hz
    · exact h4 hz
  · subst h3
    simp [transfer_from, h1, h2]
  · subst h4
    simp [transfer_from, h1, h2, h3]

/-- Counterexample for C3 as stated: with the zero identifier as caller and
an insufficient balance, `transfer` fails with `InsufficientBalance`, not
with `ZeroSenderAddress`. -/
theorem zero_identity_rejection_counterexample :
    (transfer noContract zeroAccount (new accA 5).1 accB 1).result =
      .err .InsufficientBalance ∧
    PSP22Error.InsufficientBalance ≠ PSP22Error.ZeroSenderAddress := by
  decide

/-- Witness for C3 (amended): with sufficient balance, a zero recipient is
reported as `ZeroRecipientAddress`. -/
theorem zero_identity_always_fails_witness :
    ¬ balance_of (new accA 5).1 accA < 3 ∧
    (transfer noContract accA (new accA 5).1 zeroAccount 3).result =
      .err .ZeroRecipientAddress := by
  refine ⟨by decide, ?_⟩
  exact (zero_identity_always_fails noContract accA accA zeroAccount (new accA 5).1 3).2.2.1
    (by decide) (by decide) rfl

/-- C4 (code bug): `increase_allowance` uses plain (wrapping) `u128`
addition: with the allowance at `u128::MAX`, `increase_allowance(spender, 1)`
returns `Ok` and stores the wrapped-around value `0` instead of failing the
call. -/
theorem increase_allowance_overflow_wraps :
    allowance (approve accA (new accA 5).1 accB (U128_MOD - 1)).state accA accB =
      U128_MOD - 1 ∧
    (increase_allowance accA (approve accA (new accA 5).1 accB (U128_MOD - 1)).state
      accB 1).result = .ok ∧
    allowance (increase_allowance accA
      (approve accA (new accA 5).1 accB (U128_MOD - 1)).state accB 1).state accA accB = 0 := by
  decide

/-- C5: whenever `transfer`, `transfer_from`, `increase_allowance` or
`decrease_allowance` returns an error, the storage is exactly the storage
before the call and no event is emitted. -/
theorem error_atomicity (ic : AccountId → Bool) (caller from_ to_ spender : AccountId)
    (s : Psp22Ink) (v : Nat) (e : PSP22Error) :
    ((transfer ic caller s to_ v).result = .err e →
      (transfer ic caller s to_ v).state = s ∧
      (transfer ic caller s to_ v).events = []) ∧
    ((transfer_from ic caller s from_ to_ v).result = .err e →
      (transfer_from ic caller s from_ to_ v).state = s ∧
      (transfer_from ic caller s from_ to_ v).events = []) ∧
    ((increase_allowance caller s spender v).result = .err e →
      (increase_allowance caller s spender v).state = s ∧
      (increase_allowance caller s spender v).events = []) ∧
    ((decrease_allowance caller s spender v).result = .err e →
      (decrease_allowance caller s spender v).state = s ∧
      (decrease_allowance caller s spender v).events = []) := by
  refine ⟨?_, ?_, ?_, ?_⟩
  · simp only [transfer]
    split_ifs <;> intro h <;> first | exact ⟨rfl, rfl⟩ | simp at h
  · simp only [transfer_from]
    split_ifs <;> intro h <;> first | exact ⟨rfl, rfl⟩ | simp at h
  · simp only [increase_allowance]
    split_ifs <;> intro h <;> first | exact ⟨rfl, rfl⟩ | simp at h
  · simp only [decrease_allowance]
    split_ifs <;> intro h <;> first | exact ⟨rfl, rfl⟩ | simp at h

/-- Witness for C5: a fresh account with balance 0 calling `transfer(B, 1)`
fails with `InsufficientBalance` and leaves the storage unchanged with no
event. -/
theorem error_atomicity_witness :
    (transfer noContract accC (new accA 5).1 accB 1).result = .err .InsufficientBalance ∧
    (transfer noContract accC (new accA 5).1 accB 1).state = (new accA 5).1 ∧
    (transfer noContract accC (new accA 5).1 accB 1).events = [] := by
  refine ⟨by decide, ?_, ?_⟩ <;>
  · have h := (error_atomicity noContract accC accA accB accB (new accA 5).1 1
      .InsufficientBalance).1 (by decide)
    first | exact h.1 | exact h.2

/-- C7: `approve` unconditionally sets (never adds to) the allowance,
performs no zero-identity checks, always succeeds, and emits
`Approval(owner, spender, value)`; approving `v1` then `v2` leaves the
allowance at `v2`. -/
theorem approve_overwrite (caller spender : AccountId) (s : Psp22Ink) (v1 v2 : Nat) :
    (approve caller s spender v1).result = .ok ∧
    (approve caller (approve caller s spender v1).state spender v2).result = .ok ∧
    allowance (approve caller (approve caller s spender v1).state spender v2).state
      caller spender = v2 ∧
    (approve caller (approve caller s spender v1).state spender v2).events =
      [.Approval caller spender v2] := by
  refine ⟨rfl, rfl, ?_, rfl⟩
  show (Mapping.get (Mapping.insert (Mapping.insert s.allowances (caller, spender) v1)
    (caller, spender) v2) (caller, spender)).getD 0 = v2
  rw [Mapping.get_insert_self]
  rfl

/-- C8: `decrease_allowance` checks, in order, insufficient allowance, zero
owner, zero spender; `increase_allowance` checks zero owner then zero
spender; a zero spender is reported with the recipient error kind
`ZeroRecipientAddress`. -/
theorem allowance_validation_order (caller spender : AccountId) (s : Psp22Ink) (v : Nat) :
    (allowance s caller spender < v →
      (decrease_allowance caller s spender v).result = .err .InsufficientAllowance) ∧
    (¬ allowance s caller spender < v → caller = zeroAccount →
      (decrease_allowance caller s spender v).result = .err .ZeroSenderAddress) ∧
    (¬ allowance s caller spender < v → caller ≠ zeroAccount → spender = zeroAccount →
      (decrease_allowance caller s spender v).result = .err .ZeroRecipientAddress) ∧
    (caller = zeroAccount →
      (increase_allowance caller s spender v).result = .err .ZeroSenderAddress) ∧
    (caller ≠ zeroAccount → spender = zeroAccount →
      (increase_allowance caller s spender v).result = .err .ZeroRecipientAddress) := by
  refine ⟨fun h1 => ?_, fun h1 h2 => ?_, fun h1 h2 h3 => ?_, fun h1 => ?_, fun h1 h2 => ?_⟩
  · simp [decrease_allowance, h1]
  · subst h2
    simp [decrease_allowance, h1]
  · subst h3
    simp [decrease_allowance, h1, h2]
  · subst h1
    simp [increase_allowance]
  · subst h2
    simp [increase_allowance, h1]

/-- Witness for C8: too small an allowance is reported as
`InsufficientAllowance` before the zero-spender check. -/
theorem allowance_validation_order_witness :
    allowance (new accA 5).1 accA zeroAccount < 7 ∧
    (decrease_allowance accA (new accA 5).1 zeroAccount 7).result =
      .err .InsufficientAllowance := by
  refine ⟨by decide, ?_⟩
  exact (allowance_validation_order accA zeroAccount (new accA 5).1 7).1 (by decide)

/-- C9: after `new(S)` invoked by `A`, `total_supply()` is `S`,
`balance_of(A)` is `S`, any other account reads balance `0`, any allowance
reads `0`, and exactly one `Transfer` event with `from` absent, `to = A`
and value `S` is emitted. The three queries are pure functions of the
storage (no side effects, no failure). -/
theorem constructor_and_query_defaults (A x o sp : AccountId) (S : Nat) (hx : x ≠ A) :
    (new A S).1.total_supply = S ∧
    balance_of (new A S).1 A = S ∧
    balance_of (new A S).1 x = 0 ∧
    allowance (new A S).1 o sp = 0 ∧
    (new A S).2 = [.Transfer none (some A) S] := by
  refine ⟨rfl, ?_, ?_, rfl, rfl⟩
  · show (Mapping.get (Mapping.insert Mapping.empty A S) A).getD 0 = S
    rw [Mapping.get_insert_self]
    rfl
  · show (Mapping.get (Mapping.insert Mapping.empty A S) x).getD 0 = 0
    rw [Mapping.get_insert_ne _ _ hx]
    rfl

/-- Witness for C9: the constructor state for `new(1000)` by `accA`,
queried at `accA`, at the distinct account `accB`, and at an allowance
pair never set. -/
theorem constructor_and_query_defaults_witness :
    accB ≠ accA ∧
    ((new accA 1000).1.total_supply = 1000 ∧
     balance_of (new accA 1000).1 accA = 1000 ∧
     balance_of (new accA 1000).1 accB = 0 ∧
     allowance (new accA 1000).1 accA accC = 0 ∧
     (new accA 1000).2 = [.Transfer none (some accA) 1000]) :=
  ⟨by decide, constructor_and_query_defaults accA accB accA accC 1000 (by decide)⟩

/-- C6: when `transfer_from(from, to, value)` succeeds on a reachable
state (with `from` distinct from `to`), the allowance of `(from, caller)`
decreases by exactly `value` and stays non-negative, `from` is debited and
`to` credited by exactly `value`, and exactly one
`Transfer(from, to, value)` event is emitted. -/
theorem transfer_from_success_postcondition (ic : AccountId → Bool)
    (caller from_ to_ : AccountId) (s : Psp22Ink) (v : Nat)
    (hre : Reachable s) (hne : from_ ≠ to_)
    (hok : (transfer_from ic caller s from_ to_ v).result = .ok) :
    v ≤ allowance s from_ caller ∧
    allowance (transfer_from ic caller s from_ to_ v).state from_ caller =
      allowance s from_ caller - v ∧
    v ≤ balance_of s from_ ∧
    balance_of (transfer_from ic caller s from_ to_ v).state from_ =
      balance_of s from_ - v ∧
    balance_of (transfer_from ic caller s from_ to_ v).state to_ =
      balance_of s to_ + v ∧
    (transfer_from ic caller s from_ to_ v).events =
      [.Transfer (some from_) (some to_) v] := by
  obtain ⟨hnd, hsum, hT, hal⟩ := inv_of_reachable hre
  simp only [transfer_from] at hok ⊢
  split_ifs at hok ⊢ with h1 h2 h3 h4 h5
  have hv_al : v ≤ allowance s from_ caller := Nat.le_of_not_lt h1
  have hv_fb : v ≤ balance_of s from_ := Nat.le_of_not_lt h2
  have hal_lt : allowance s from_ caller < U128_MOD :=
    Mapping.valuesBounded_getD (from_, caller) hal U128_MOD_pos
  have hfb_le : balance_of s from_ ≤ Mapping.sumVals s.balances :=
    Mapping.getD_le_sumVals s.balances from_
  have hfb_lt : balance_of s from_ < U128_MOD := by omega
  have hsub_fb : u128sub (balance_of s from_) v = balance_of s from_ - v :=
    u128sub_eq hfb_lt hv_fb
  have e1 : Mapping.sumVals
      (Mapping.insert s.balances from_ (u128sub (balance_of s from_) v)) +
      balance_of s from_ =
      Mapping.sumVals s.balances + u128sub (balance_of s from_) v :=
    Mapping.sumVals_insert_exchange hnd from_ _
  have hget_to : Mapping.get
      (Mapping.insert s.balances from_ (u128sub (balance_of s from_) v)) to_ =
      Mapping.get s.balances to_ :=
    Mapping.get_insert_ne s.balances _ (Ne.symm hne)
  have htb_le : balance_of s to_ ≤ Mapping.sumVals
      (Mapping.insert s.balances from_ (u128sub (balance_of s from_) v)) := by
    have h := Mapping.getD_le_sumVals
      (Mapping.insert s.balances from_ (u128sub (balance_of s from_) v)) to_
    rw [hget_to] at h
    exact h
  have hadd_tb : u128add (balance_of s to_) v = balance_of s to_ + v :=
    u128add_eq (by omega)
  refine ⟨hv_al, ?_, hv_fb, ?_, ?_, rfl⟩
  · show (Mapping.get (Mapping.insert s.allowances (from_, caller)
      (u128sub (allowance s from_ caller) v)) (from_, caller)).getD 0 =
      allowance s from_ caller - v
    rw [Mapping.get_insert_self]
    exact u128sub_eq hal_lt hv_al
  · show (Mapping.get (Mapping.insert
      (Mapping.insert s.balances from_ (u128sub (balance_of s from_) v)) to_
      (u128add (balance_of { s with
        allowances := Mapping.insert s.allowances (from_, caller)
          (u128sub (allowance s from_ caller) v),
        balances := Mapping.insert s.balances from_
          (u128sub (balance_of s from_) v) } to_) v)) from_).getD 0 =
      balance_of s from_ - v
    rw [Mapping.get_insert_ne _ _ hne, Mapping.get_insert_self]
    exact hsub_fb
  · show (Mapping.get (Mapping.insert
      (Mapping.insert s.balances from_ (u128sub (balance_of s from_) v)) to_
      (u128add (balance_of { s with
        allowances := Mapping.insert s.allowances (from_, caller)
          (u128sub (allowance s from_ caller) v),
        balances := Mapping.insert s.balances from_
          (u128sub (balance_of s from_) v) } to_) v)) to_).getD 0 =
      balance_of s to_ + v
    rw [Mapping.get_insert_self]
    show u128add ((Mapping.get (Mapping.insert s.balances from_
      (u128sub (balance_of s from_) v)) to_).getD 0) v = balance_of s to_ + v
    rw [hget_to]
    exact hadd_tb

/-- Witness for C6: after `new(100)` by `accA` and `approve(accC, 100)`,
`accC` calls `transfer_from(accA, accD, 60)`: the allowance drops to 40,
`accA` is left with 40, `accD` holds 60. -/
theorem transfer_from_success_postcondition_witness :
    Reachable (approve accA (new accA 100).1 accC 100).state ∧
    accA ≠ accD ∧
    (transfer_from noContract accC (approve accA (new accA 100).1 accC 100).state
      accA accD 60).result = .ok ∧
    allowance (transfer_from noContract accC (approve accA (new accA 100).1 accC 100).state
      accA accD 60).state accA accC = 40 ∧
    balance_of (transfer_from noContract accC (approve accA (new accA 100).1 accC 100).state
      accA accD 60).state accA = 40 ∧
    balance_of (transfer_from noContract accC (approve accA (new accA 100).1 accC 100).state
      accA accD 60).state accD = 60 := by
  have hre : Reachable (approve accA (new accA 100).1 accC 100).state :=
    Reachable.approve_step accA accC 100 _ (by norm_num [U128_MOD])
      (Reachable.init accA 100 (by norm_num [U128_MOD]))
  have hne : accA ≠ accD := by decide
  have hok : (transfer_from noContract accC (approve accA (new accA 100).1 accC 100).state
      accA accD 60).result = .ok := by decide
  have h := transfer_from_success_postcondition noContract accC accA accD
    (approve accA (new accA 100).1 accC 100).state 60 hre hne hok
  refine ⟨hre, hne, hok, ?_, ?_, ?_⟩
  · rw [h.2.1]
    decide
  · rw [h.2.2.2.1]
    decide
  · rw [h.2.2.2.2.1]
    decide

/-- Reading any key after the self-transfer debit-credit sequence on key
`c` gives back the original value: the credit re-reads the balance after
the debit was written. -/
theorem get_self_move {m : Mapping AccountId Nat} {c : AccountId} (v : Nat) (a : AccountId)
    (hfb_lt : (Mapping.get m c).getD 0 < U128_MOD)
    (hv : v ≤ (Mapping.get m c).getD 0) :
    (Mapping.get (Mapping.insert (Mapping.insert m c
      (u128sub ((Mapping.get m c).getD 0) v)) c
      (u128add ((Mapping.get (Mapping.insert m c
        (u128sub ((Mapping.get m c).getD 0) v)) c).getD 0) v)) a).getD 0 =
    (Mapping.get m a).getD 0 := by
  by_cases ha : a = c
  · subst ha
    rw [Mapping.get_insert_self, Mapping.get_insert_self]
    simp only [Option.getD_some]
    rw [u128sub_eq hfb_lt hv, u128add_eq (by omega)]
    omega
  · rw [Mapping.get_insert_ne _ _ ha, Mapping.get_insert_ne _ _ ha]

/-- C10: on a reachable state, a self-`transfer` by a non-zero, non-contract
caller with sufficient balance succeeds and leaves every balance unchanged
(the recipient balance is re-read after the sender debit is written); a
self-`transfer_from` likewise succeeds, leaves every balance unchanged, and
still decrements the allowance by `value`. -/
theorem self_transfer_preserves_balances (ic : AccountId → Bool)
    (c caller from_ : AccountId) (s : Psp22Ink) (v : Nat) (hre : Reachable s) :
    (c ≠ zeroAccount → ic c = false → v ≤ balance_of s c →
      (transfer ic c s c v).result = .ok ∧
      ∀ a : AccountId, balance_of (transfer ic c s c v).state a = balance_of s a) ∧
    (from_ ≠ zeroAccount → ic from_ = false → v ≤ allowance s from_ caller →
      v ≤ balance_of s from_ →
      (transfer_from ic caller s from_ from_ v).result = .ok ∧
      (∀ a : AccountId, balance_of (transfer_from ic caller s from_ from_ v).state a =
        balance_of s a) ∧
      allowance (transfer_from ic caller s from_ from_ v).state from_ caller =
        allowance s from_ caller - v) := by
  obtain ⟨hnd, hsum, hT, hal⟩ := inv_of_reachable hre
  constructor
  · intro hc hic hv
    have h1 : ¬ balance_of s c < v := Nat.not_lt.mpr hv
    have hic' : ¬ ic c = true := by simp [hic]
    have hfb_le : balance_of s c ≤ Mapping.sumVals s.balances :=
      Mapping.getD_le_sumVals s.balances c
    have hfb_lt : balance_of s c < U128_MOD := by omega
    simp only [transfer]
    split_ifs
    refine ⟨rfl, fun a => ?_⟩
    exact get_self_move v a hfb_lt hv
  · intro hf hic hval hbal
    have h1 : ¬ allowance s from_ caller < v := Nat.not_lt.mpr hval
    have h2 : ¬ balance_of s from_ < v := Nat.not_lt.mpr hbal
    have hic' : ¬ ic from_ = true := by simp [hic]
    have hal_lt : allowance s from_ caller < U128_MOD :=
      Mapping.valuesBounded_getD (from_, caller) hal U128_MOD_pos
    have hfb_le : balance_of s from_ ≤ Mapping.sumVals s.balances :=
      Mapping.getD_le_sumVals s.balances from_
    have hfb_lt : balance_of s from_ < U128_MOD := by omega
    simp only [transfer_from]
    split_ifs
    refine ⟨rfl, fun a => ?_, ?_⟩
    · exact get_self_move v a hfb_lt hbal
    · show (Mapping.get (Mapping.insert s.allowances (from_, caller)
        (u128sub (allowance s from_ caller) v)) (from_, caller)).getD 0 =
        allowance s from_ caller - v
      rw [Mapping.get_insert_self]
      exact u128sub_eq hal_lt hval

/-- Witness for C10: a self-transfer of 4 by `accA` on the constructor
state for `new(10)` succeeds and leaves the balance of `accA` at 10. -/
theorem self_transfer_preserves_balances_witness :
    Reachable (new accA 10).1 ∧
    (transfer noContract accA (new accA 10).1 accA 4).result = .ok ∧
    balance_of (transfer noContract accA (new accA 10).1 accA 4).state accA =
      balance_of (new accA 10).1 accA := by
  have hre : Reachable (new accA 10).1 := Reachable.init accA 10 (by norm_num [U128_MOD])
  have h := (self_transfer_preserves_balances noContract accA accA accA
    (new accA 10).1 4 hre).1 (by decide) rfl (by decide)
  exact ⟨hre, h.1, h.2 accA⟩

end Psp22
